import Mathlib

/-!
# Verification of the SupplyChainDelay_Visualiser pipeline

Shallow embedding of `src/SupplyChain.py`: a pandas-style table, the
missing-value filter performed at load time (`df.dropna`), the dtype-based
column classifier (`select_dtypes`), the Pearson correlation matrix
(`df[numerical_cols].corr()`), the top-correlated-pair selector feeding the
scatter plots, the chart-generation pipeline (as the sequence of figures
appended to the PDF plus the console messages), the pairplot sampling step,
and the folium map step.

Cell values are exact rationals (for numbers) or strings; floating-point
rounding is not modelled.  The undefined (NaN) correlation of a
zero-variance column is modelled by `Option`.
-/

/-! ## Definitions -/

/-- A pandas dtype, as relevant to `select_dtypes` in the source: the two
numeric dtypes and the two categorical dtypes that the script selects, plus
a representative of every other dtype a loaded frame can carry (for example
`bool`, which `pd.read_csv` infers for a column of True/False values). -/
inductive Dtype
  | int64
  | float64
  | obj
  | category
  | boolean

deriving DecidableEq, Repr

/-- A cell value: a number or a piece of text. -/
abbrev Val := Sum ℚ String

/-- A cell of the table; `none` is a missing value (NaN). -/
abbrev Cell := Option Val

/-- The in-memory table (`df`): named, dtyped columns and position-aligned
rows.  Row `r` stores the cell of column `i` at position `i`. -/
structure DF where
  cols : List (String × Dtype)
  rows : List (List Cell)

deriving Repr, DecidableEq

/-- `df.columns`. -/
def columnNames (df : DF) : List String := df.cols.map Prod.fst

/-- Rows of a loaded frame are aligned with its column list. -/
def Aligned (df : DF) : Prop := ∀ r ∈ df.rows, r.length = df.cols.length

/-- `df.dropna(inplace=True)` (line 15): drop every row containing a missing
value in any column. -/
def dropnaAll (df : DF) : DF :=
  ⟨df.cols, df.rows.filter (fun r => r.all Option.isSome)⟩

/-- Whether a dtype is selected by `select_dtypes(include=['int64', 'float64'])`. -/
def isNumericDtype : Dtype → Bool
  | .int64 => true
  | .float64 => true
  | _ => false

/-- Whether a dtype is selected by `select_dtypes(include=['object', 'category'])`. -/
def isCategoricalDtype : Dtype → Bool
  | .obj => true
  | .category => true
  | _ => false

/-- `numerical_cols` (line 18). -/
def numerical_cols (df : DF) : List String :=
  (df.cols.filter (fun p => isNumericDtype p.2)).map Prod.fst

/-- `categorical_cols` (line 19). -/
def categorical_cols (df : DF) : List String :=
  (df.cols.filter (fun p => isCategoricalDtype p.2)).map Prod.fst

/-- Position of a column name in the frame (`df.columns.get_loc`). -/
def colIndex (df : DF) (c : String) : Nat := (columnNames df).indexOf c

/-- The cell of column `c` in row `r` of `df`. -/
def cellAt (df : DF) (r : List Cell) (c : String) : Cell :=
  r.getD (colIndex df c) none

/-- The column `df[c]` as a list of cells, in row order. -/
def colCells (df : DF) (c : String) : List Cell :=
  df.rows.map (fun r => cellAt df r c)

/-- Numeric reading of a cell; text or missing cells give `none`. -/
def cellToQ : Cell → Option ℚ
  | some (.inl q) => some q
  | _ => none

/-- The numeric values of column `df[c]`. -/
def colQ (df : DF) (c : String) : List ℚ :=
  (colCells df c).filterMap cellToQ

/-- `df.dropna(subset=sub)` (line 166): keep the rows whose cells in the
named columns are all present. -/
def dropnaSubset (df : DF) (sub : List String) : DF :=
  ⟨df.cols, df.rows.filter (fun r => sub.all (fun c => (cellAt df r c).isSome))⟩

/-! ## Correlation-Pair Selector (lines 107-122)

`top_pairs = corr.abs().unstack().sort_values(ascending=False)` followed by
the loop that skips self-pairs and already-seen reversed pairs and stops
after five emissions.  The absolute correlation scores are abstracted as a
function `f` on column names, so every theorem below holds for the scores
of any concrete table. -/

/-- One entry of the unstacked series: `((col1, col2), score)`. -/
abbrev PairEntry := (String × String) × ℚ

/-- `corr.abs().unstack()`: one entry per ordered pair of columns. -/
def unstackAbs (cols : List String) (f : String → String → ℚ) : List PairEntry :=
  cols.flatMap (fun a => cols.map (fun b => ((a, b), f a b)))

/-- The descending order used by `sort_values(ascending=False)`. -/
def scoreGE (e1 e2 : PairEntry) : Prop := e2.2 ≤ e1.2

instance : DecidableRel scoreGE := fun e1 e2 => inferInstanceAs (Decidable (e2.2 ≤ e1.2))

instance : IsTotal PairEntry scoreGE := ⟨fun a b => le_total b.2 a.2⟩

instance : IsTrans PairEntry scoreGE := ⟨fun _ _ _ h1 h2 => le_trans h2 h1⟩

/-- `top_pairs` (line 108): the unstacked absolute scores sorted
non-increasing. -/
def top_pairs (cols : List String) (f : String → String → ℚ) : List PairEntry :=
  List.insertionSort scoreGE (unstackAbs cols f)

/-- The loop of lines 109-122: emit entries in order, skipping self-pairs
and entries whose reverse is in `seen`; after an emission makes the count
reach 5, break. -/
def selectPairs : List PairEntry → List (String × String) → Nat → List PairEntry
  | [], _, _ => []
  | e :: rest, seen, count =>
    if e.1.1 ≠ e.1.2 ∧ (e.1.2, e.1.1) ∉ seen then
      if 5 ≤ count + 1 then [e]
      else e :: selectPairs rest (e.1 :: seen) (count + 1)
    else selectPairs rest seen count

/-- The Ranked Pair List actually consumed by the scatter-plot loop. -/
def rankedPairs (cols : List String) (f : String → String → ℚ) : List PairEntry :=
  selectPairs (top_pairs cols f) [] 0

/-! ### Length of the Ranked Pair List

The loop with its five-pair cutoff is the `take 5` of the cutoff-free loop,
and the cutoff-free loop emits exactly one entry per distinct unordered
non-self pair occurring in its input. -/

/-- The selection loop of lines 109-122 without the five-pair cutoff. -/
def selectAll : List PairEntry → List (String × String) → List PairEntry
  | [], _ => []
  | e :: rest, seen =>
    if e.1.1 ≠ e.1.2 ∧ (e.1.2, e.1.1) ∉ seen then e :: selectAll rest (e.1 :: seen)
    else selectAll rest seen

/-- The distinct unordered non-self pairs occurring in `l` and not already
covered by `seen`. -/
def pairKeys (l : List PairEntry) (seen : List (String × String)) : Finset (Sym2 String) :=
  ((l.filter (fun e => decide (e.1.1 ≠ e.1.2 ∧ (e.1.2, e.1.1) ∉ seen))).map
    (fun e => Sym2.mk e.1)).toFinset

/-! ## The chart pipeline (lines 22-194)

The PDF is modelled as the list of figures saved into it, in order; the
console output as a list of message tags.  A run that raises an unguarded
exception is an `Except.error`. -/

/-- One figure saved into the PDF. -/
inductive Fig
  | box
  | hist
  | kde
  | revline
  | heatmap
  | violin
  | freq (c : String)
  | scatter (a b : String)
  | pairplot
  | grouped (c : String)
  | regional
  | topproducts

deriving DecidableEq, Repr

/-- A console message printed by the script. -/
inductive Msg
  | violinSkip
  | mapSkipCols
  | mapSkipEmpty
  | mapSaved
  | pdfSaved

deriving DecidableEq, Repr

/-- Line 64: the revenue line plot, only if the column exists. -/
def revlineFigs (df : DF) : List Fig :=
  if "Revenue generated" ∈ columnNames df then [Fig.revline] else []

/-- Lines 85-94: violin plot if both columns exist, else a skip notice. -/
def violinStep (df : DF) : List Fig × List Msg :=
  if "Product type" ∈ columnNames df ∧ "Defect rates" ∈ columnNames df then
    ([Fig.violin], [])
  else
    ([], [Msg.violinSkip])

/-- Lines 98-105: one frequency bar chart per categorical column. -/
def freqFigs (df : DF) : List Fig :=
  (categorical_cols df).map Fig.freq

/-- Lines 107-122: one scatter plot per selected top pair.  `f` stands for
the absolute correlation scores of the concrete data. -/
def scatterFigs (df : DF) (f : String → String → ℚ) : List Fig :=
  (rankedPairs (numerical_cols df) f).map (fun e => Fig.scatter e.1.1 e.1.2)

/-- Lines 124-127: the sampled pairplot; `sample` raises on an empty frame
because the sample size expression is 1 when `len(df) <= 1`. -/
def pairplotStep (df : DF) : Except String (List Fig) :=
  if df.rows.length = 0 then Except.error "ValueError: cannot sample 1 row from empty frame"
  else Except.ok [Fig.pairplot]

/-- Line 131. -/
def grouping_cols : List String := ["Shipping mode", "Product category", "Customer segment"]

/-- Lines 130-141: for each grouping column present, group and take the mean
of `df.groupby(col)['Revenue generated']`; pandas raises `KeyError` when the
revenue column is missing. -/
def groupedStep (df : DF) : Except String (List Fig) :=
  (grouping_cols.filter (fun c => c ∈ columnNames df)).mapM (fun c =>
    if "Revenue generated" ∈ columnNames df then Except.ok (Fig.grouped c)
    else Except.error "KeyError: Revenue generated")

/-- Lines 144-151: regional revenue bars, both columns guarded. -/
def regionalFigs (df : DF) : List Fig :=
  if "Region" ∈ columnNames df ∧ "Revenue generated" ∈ columnNames df then
    [Fig.regional]
  else []

/-- Lines 154-161: top products bars, both columns guarded. -/
def topFigs (df : DF) : List Fig :=
  if "Product name" ∈ columnNames df ∧ "Revenue generated" ∈ columnNames df then
    [Fig.topproducts]
  else []

/-- The standalone folium artifact: initial view centre and zoom. -/
structure MapArt where
  lat : ℚ
  lon : ℚ
  zoom : Nat

deriving DecidableEq, Repr

/-- `Series.mean()` on exact values. -/
def meanQ (l : List ℚ) : ℚ := l.sum / l.length

/-- Lines 163-189: the map step.  Written iff the three columns exist and
the coordinate-filtered frame is non-empty; the view centre is the mean of
the filtered coordinates; every branch that skips prints a diagnostic. -/
def mapStep (df : DF) : Option MapArt × List Msg :=
  if "Latitude" ∈ columnNames df ∧ "Longitude" ∈ columnNames df ∧
      "Revenue generated" ∈ columnNames df then
    if (dropnaSubset df ["Latitude", "Longitude"]).rows.isEmpty then
      (none, [Msg.mapSkipEmpty])
    else
      (some ⟨meanQ (colQ (dropnaSubset df ["Latitude", "Longitude"]) "Latitude"),
             meanQ (colQ (dropnaSubset df ["Latitude", "Longitude"]) "Longitude"), 4⟩,
       [Msg.mapSaved])
  else (none, [Msg.mapSkipCols])

/-- The whole script run on a raw frame: `dropna`, then every generator in
source order.  The result is the PDF figure list and the console messages;
an unguarded exception aborts the run. -/
def pipeline (df0 : DF) (f : String → String → ℚ) :
    Except String (List Fig × List Msg) :=
  let df := dropnaAll df0
  if numerical_cols df = [] then
    Except.error "ValueError: histogram grid of zero numerical columns"
  else
    let vstep := violinStep df
    (pairplotStep df).bind (fun pf =>
      (groupedStep df).bind (fun gf =>
        let mstep := mapStep df
        Except.ok
          ( [Fig.box, Fig.hist, Fig.kde] ++ revlineFigs df ++ [Fig.heatmap] ++ vstep.1
              ++ freqFigs df ++ scatterFigs df f ++ pf ++ gf
              ++ regionalFigs df ++ topFigs df
          , vstep.2 ++ mstep.2 ++ [Msg.pdfSaved] )))

/-! ## Correlation Matrix (line 76)

`corr = df[numerical_cols].corr()` computes the Pearson correlation of each
pair of numerical columns: the covariance of the two columns divided by the
product of their standard deviations.  When a column has zero variance the
divisor is zero and pandas produces NaN, modelled here by `none`. -/

/-- `Series.mean()`. -/
def qmean (l : List ℚ) : ℚ := l.sum / l.length

/-- Deviations from the mean. -/
def devs (l : List ℚ) : List ℚ := l.map (fun v => v - qmean l)

/-- Unnormalised covariance of two columns (the `1/(n-1)` factors cancel in
the correlation quotient). -/
def covSum (x y : List ℚ) : ℚ :=
  (List.zipWith (fun a b => a * b) (devs x) (devs y)).sum

/-- Unnormalised variance of a column. -/
def varSum (x : List ℚ) : ℚ := covSum x x

/-- The Pearson correlation entry for two columns; `none` is pandas' NaN for
a zero-variance column. -/
noncomputable def corr (x y : List ℚ) : Option ℝ :=
  if varSum x = 0 ∨ varSum y = 0 then none
  else some ((covSum x y : ℝ) / (Real.sqrt (varSum x) * Real.sqrt (varSum y)))

/-- The entry of `corr = df[numerical_cols].corr()` at row `c1`, column `c2`. -/
noncomputable def corrM (df : DF) (c1 c2 : String) : Option ℝ :=
  corr (colQ df c1) (colQ df c2)

/-! ## Pairplot sampling (line 125)

`df[numerical_cols].sample(n = min(500, len(df)) if len(df) > 1 else 1)`.
The random draw of `pandas.DataFrame.sample(n, replace=False)` is modelled
by the list of drawn row positions: pandas guarantees the positions are
distinct (no replacement), in range, and `n` of them. -/

/-- The sample-size expression of line 125. -/
def sampleN (rowCount : Nat) : Nat :=
  if 1 < rowCount then min 500 rowCount else 1

/-- Extract the rows at the drawn positions; `none` only if a position is
out of range (pandas would have raised instead of drawing it). -/
def pandasSample {α : Type} (rows : List α) (idxs : List Nat) : Option (List α) :=
  idxs.mapM (fun i => rows[i]?)

deriving instance DecidableEq for Except

/-! ## Concrete tables -/

/-- Table with a grouping column but no revenue column. -/
def dfC3 : DF :=
  ⟨[("Shipping mode", Dtype.obj), ("X", Dtype.float64)],
   [[some (Sum.inr "Air"), some (Sum.inl 1)],
    [some (Sum.inr "Sea"), some (Sum.inl 2)]]⟩

/-- The end-to-end scenario table: revenue, region, product name, three
further numeric fields, 50 complete rows. -/
def dfScenario : DF :=
  ⟨[("Revenue generated", Dtype.float64), ("Region", Dtype.obj),
    ("Product name", Dtype.obj), ("Price", Dtype.float64),
    ("Stock levels", Dtype.int64), ("Order quantities", Dtype.int64)],
   List.replicate 50
     [some (Sum.inl 100), some (Sum.inr "North"), some (Sum.inr "P1"),
      some (Sum.inl 5), some (Sum.inl 10), some (Sum.inl 20)]⟩

/-- Table with exactly three numerical columns. -/
def dfThreeNum : DF :=
  ⟨[("a", Dtype.float64), ("b", Dtype.float64), ("c", Dtype.float64)],
   [[some (Sum.inl 1), some (Sum.inl 2), some (Sum.inl 3)]]⟩

/-- Table with one row containing a missing value. -/
def dfMissing : DF :=
  ⟨[("a", Dtype.float64), ("b", Dtype.float64)],
   [[some (Sum.inl 1), none], [some (Sum.inl 3), some (Sum.inl 4)]]⟩

/-- Table whose numerical column `x` is constant (zero variance). -/
def dfConstCol : DF :=
  ⟨[("x", Dtype.float64), ("y", Dtype.float64)],
   [[some (Sum.inl 1), some (Sum.inl 0)], [some (Sum.inl 1), some (Sum.inl 1)]]⟩

/-- Table whose numerical columns both have nonzero variance. -/
def dfVarW : DF :=
  ⟨[("x", Dtype.float64), ("y", Dtype.float64)],
   [[some (Sum.inl 0), some (Sum.inl 0)], [some (Sum.inl 2), some (Sum.inl 4)]]⟩

/-- Table with a boolean-dtyped column, which `select_dtypes` puts in
neither class. -/
def dfBool : DF :=
  ⟨[("Flag", Dtype.boolean), ("x", Dtype.float64)],
   [[some (Sum.inr "True"), some (Sum.inl 1)]]⟩

/-- Table with coordinates and revenue for the map step. -/
def dfMapW : DF :=
  ⟨[("Latitude", Dtype.float64), ("Longitude", Dtype.float64),
    ("Revenue generated", Dtype.float64)],
   [[some (Sum.inl 10), some (Sum.inl 20), some (Sum.inl 5)]]⟩

/-- The document shape asserted by the end-to-end scenario sentence of the
spec: box, histogram grid, KDE grid, revenue line, heatmap, then at most 5
scatter plots, the pairplot, grouped revenue bars for each present grouping
column, regional revenue bars and top products bars, with no violin figure
and a violin skip notice. -/
def claimedDocShape (df : DF) (figs : List Fig) (msgs : List Msg) : Prop :=
  ∃ sc gr : List Fig,
    (∀ g ∈ sc, ∃ a b, g = Fig.scatter a b) ∧ sc.length ≤ 5 ∧
    (∀ g ∈ gr, ∃ c, g = Fig.grouped c ∧ c ∈ grouping_cols ∧ c ∈ columnNames df) ∧
    figs = [Fig.box, Fig.hist, Fig.kde, Fig.revline, Fig.heatmap] ++ sc ++
      [Fig.pairplot] ++ gr ++ [Fig.regional, Fig.topproducts] ∧
    Fig.violin ∉ figs ∧ Msg.violinSkip ∈ msgs

/-! ## Theorems -/

theorem dropnaAll_cols (df : DF) : (dropnaAll df).cols = df.cols := rfl

theorem dropnaAll_rows_sublist (df : DF) : (dropnaAll df).rows.Sublist df.rows :=
  List.filter_sublist df.rows

theorem dropnaAll_rows_complete (df : DF) :
    ∀ r ∈ (dropnaAll df).rows, ∀ c ∈ r, c.isSome := by
  intro r hr c hc
  have h := List.of_mem_filter hr
  exact List.all_eq_true.mp h c hc

theorem dropnaAll_mem_rows (df : DF) :
    ∀ r ∈ (dropnaAll df).rows, r ∈ df.rows := fun _ hr => List.mem_of_mem_filter hr

theorem numerical_cols_mem (df : DF) (p : String × Dtype) (hp : p ∈ df.cols)
    (h : isNumericDtype p.2 = true) : p.1 ∈ numerical_cols df := by
  exact List.mem_map_of_mem _ (List.mem_filter.mpr ⟨hp, h⟩)

theorem categorical_cols_mem (df : DF) (p : String × Dtype) (hp : p ∈ df.cols)
    (h : isCategoricalDtype p.2 = true) : p.1 ∈ categorical_cols df := by
  exact List.mem_map_of_mem _ (List.mem_filter.mpr ⟨hp, h⟩)

theorem mem_numerical_cols (df : DF) (c : String) (h : c ∈ numerical_cols df) :
    ∃ d, (c, d) ∈ df.cols ∧ isNumericDtype d = true := by
  rcases List.mem_map.mp h with ⟨p, hp, rfl⟩
  rcases List.mem_filter.mp hp with ⟨hmem, hd⟩
  exact ⟨p.2, hmem, hd⟩

theorem mem_categorical_cols (df : DF) (c : String) (h : c ∈ categorical_cols df) :
    ∃ d, (c, d) ∈ df.cols ∧ isCategoricalDtype d = true := by
  rcases List.mem_map.mp h with ⟨p, hp, rfl⟩
  rcases List.mem_filter.mp hp with ⟨hmem, hd⟩
  exact ⟨p.2, hmem, hd⟩

/-- With unique column names, the declared dtype of a name is unique. -/
theorem dtype_unique (df : DF) (hnd : (columnNames df).Nodup) {c : String}
    {d d' : Dtype} (h : (c, d) ∈ df.cols) (h' : (c, d') ∈ df.cols) : d = d' := by
  have := List.inj_on_of_nodup_map (f := Prod.fst) (by exact hnd) h h' rfl
  exact congrArg Prod.snd this

theorem not_mem_both (df : DF) (hnd : (columnNames df).Nodup) (c : String) :
    ¬(c ∈ numerical_cols df ∧ c ∈ categorical_cols df) := by
  rintro ⟨hn, hc⟩
  rcases mem_numerical_cols df c hn with ⟨d, hd, hnum⟩
  rcases mem_categorical_cols df c hc with ⟨d', hd', hcat⟩
  have : d = d' := dtype_unique df hnd hd hd'
  subst this
  cases d <;> simp_all [isNumericDtype, isCategoricalDtype]

theorem selectPairs_sublist (l : List PairEntry) (seen : List (String × String))
    (count : Nat) : (selectPairs l seen count).Sublist l := by
  induction l generalizing seen count with
  | nil => simp [selectPairs]
  | cons e rest ih =>
    rw [selectPairs]
    by_cases h : e.1.1 ≠ e.1.2 ∧ (e.1.2, e.1.1) ∉ seen
    · rw [if_pos h]
      by_cases h5 : 5 ≤ count + 1
      · rw [if_pos h5]
        exact (List.nil_sublist rest).cons₂ e
      · rw [if_neg h5]
        exact (ih _ _).cons₂ e
    · rw [if_neg h]
      exact (ih seen count).cons e

theorem selectPairs_mem (l : List PairEntry) (seen : List (String × String))
    (count : Nat) : ∀ e ∈ selectPairs l seen count, e ∈ l :=
  fun _ he => (selectPairs_sublist l seen count).mem he

theorem selectPairs_no_self (l : List PairEntry) (seen : List (String × String))
    (count : Nat) : ∀ e ∈ selectPairs l seen count, e.1.1 ≠ e.1.2 := by
  induction l generalizing seen count with
  | nil => simp [selectPairs]
  | cons e rest ih =>
    rw [selectPairs]
    by_cases h : e.1.1 ≠ e.1.2 ∧ (e.1.2, e.1.1) ∉ seen
    · rw [if_pos h]
      by_cases h5 : 5 ≤ count + 1
      · rw [if_pos h5]
        intro x hx
        rcases List.mem_singleton.mp hx with rfl
        exact h.1
      · rw [if_neg h5]
        intro x hx
        rcases List.mem_cons.mp hx with rfl | hx
        · exact h.1
        · exact ih _ _ x hx
    · rw [if_neg h]
      exact ih seen count

/-- Every emitted entry has its reversed pair outside the initial `seen`. -/
theorem selectPairs_swap_not_seen (l : List PairEntry) (seen : List (String × String))
    (count : Nat) : ∀ e ∈ selectPairs l seen count, (e.1.2, e.1.1) ∉ seen := by
  induction l generalizing seen count with
  | nil => simp [selectPairs]
  | cons e rest ih =>
    rw [selectPairs]
    by_cases h : e.1.1 ≠ e.1.2 ∧ (e.1.2, e.1.1) ∉ seen
    · rw [if_pos h]
      by_cases h5 : 5 ≤ count + 1
      · rw [if_pos h5]
        intro x hx
        rcases List.mem_singleton.mp hx with rfl
        exact h.2
      · rw [if_neg h5]
        intro x hx
        rcases List.mem_cons.mp hx with rfl | hx
        · exact h.2
        · intro hmem
          exact ih _ _ x hx (List.mem_cons_of_mem _ hmem)
    · rw [if_neg h]
      exact ih seen count

/-- No emitted entry is the reverse of an earlier emitted entry. -/
theorem selectPairs_no_reverse (l : List PairEntry) (seen : List (String × String))
    (count : Nat) :
    (selectPairs l seen count).Pairwise (fun e e' => e'.1 ≠ (e.1.2, e.1.1)) := by
  induction l generalizing seen count with
  | nil => simp [selectPairs]
  | cons e rest ih =>
    rw [selectPairs]
    by_cases h : e.1.1 ≠ e.1.2 ∧ (e.1.2, e.1.1) ∉ seen
    · rw [if_pos h]
      by_cases h5 : 5 ≤ count + 1
      · rw [if_pos h5]
        simp
      · rw [if_neg h5]
        refine List.Pairwise.cons ?_ (ih _ _)
        intro e' he' heq
        have hswap := selectPairs_swap_not_seen _ _ _ e' he'
        apply hswap
        have : (e'.1.2, e'.1.1) = e.1 := by
          rw [heq]
        rw [this]
        exact List.mem_cons_self _ _
    · rw [if_neg h]
      exact ih seen count

/-- The emitted entries keep the non-increasing score order of the input. -/
theorem selectPairs_sorted (l : List PairEntry) (seen : List (String × String))
    (count : Nat) (hl : l.Pairwise scoreGE) :
    (selectPairs l seen count).Pairwise scoreGE :=
  hl.sublist (selectPairs_sublist l seen count)

theorem selectPairs_eq_take (l : List PairEntry) (seen : List (String × String))
    (count : Nat) (hc : count < 5) :
    selectPairs l seen count = (selectAll l seen).take (5 - count) := by
  induction l generalizing seen count with
  | nil => simp [selectPairs, selectAll]
  | cons e rest ih =>
    rw [selectPairs, selectAll]
    by_cases h : e.1.1 ≠ e.1.2 ∧ (e.1.2, e.1.1) ∉ seen
    · rw [if_pos h, if_pos h]
      by_cases h5 : 5 ≤ count + 1
      · rw [if_pos h5]
        have h1 : 5 - count = 1 := by omega
        rw [h1, List.take_succ_cons, List.take_zero]
      · rw [if_neg h5]
        have h1 : 5 - count = (5 - (count + 1)) + 1 := by omega
        rw [h1, List.take_succ_cons, ih _ _ (by omega)]
    · rw [if_neg h, if_neg h]
      exact ih seen count hc

theorem mem_pairKeys {x : Sym2 String} {l : List PairEntry}
    {seen : List (String × String)} :
    x ∈ pairKeys l seen ↔
      ∃ e ∈ l, e.1.1 ≠ e.1.2 ∧ (e.1.2, e.1.1) ∉ seen ∧ x = Sym2.mk e.1 := by
  simp only [pairKeys, List.mem_toFinset, List.mem_map, List.mem_filter,
    decide_eq_true_eq]
  constructor
  · rintro ⟨e, ⟨he, hcond⟩, rfl⟩
    exact ⟨e, he, hcond.1, hcond.2, rfl⟩
  · rintro ⟨e, he, h1, h2, rfl⟩
    exact ⟨e, ⟨he, h1, h2⟩, rfl⟩

theorem selectAll_length (l : List PairEntry) (seen : List (String × String))
    (hnd : (l.map (fun e => e.1)).Nodup) (hseen : ∀ e ∈ l, e.1 ∉ seen) :
    (selectAll l seen).length = (pairKeys l seen).card := by
  induction l generalizing seen with
  | nil => simp [selectAll, pairKeys]
  | cons e rest ih =>
    have hnd' : (rest.map (fun e => e.1)).Nodup := (List.nodup_cons.mp hnd).2
    have hhead : e.1 ∉ rest.map (fun e => e.1) := (List.nodup_cons.mp hnd).1
    rw [selectAll]
    by_cases h : e.1.1 ≠ e.1.2 ∧ (e.1.2, e.1.1) ∉ seen
    · rw [if_pos h]
      have hkeys : pairKeys (e :: rest) seen = insert (Sym2.mk e.1) (pairKeys rest seen) := by
        simp [pairKeys, List.filter_cons, h]
      have herase : pairKeys rest (e.1 :: seen) = (pairKeys rest seen).erase (Sym2.mk e.1) := by
        apply Finset.ext
        intro x
        rw [Finset.mem_erase, mem_pairKeys, mem_pairKeys]
        constructor
        · rintro ⟨e', he', h1, h2, rfl⟩
          have h2' : (e'.1.2, e'.1.1) ∉ seen := fun hm => h2 (List.mem_cons_of_mem _ hm)
          have hne : Sym2.mk e'.1 ≠ Sym2.mk e.1 := by
            intro heq
            rcases Sym2.mk_eq_mk_iff.mp heq with heq' | heq'
            · exact hhead (heq' ▸ List.mem_map_of_mem (fun e => e.1) he')
            · apply h2
              have : (e'.1.2, e'.1.1) = e.1 := by
                rw [heq']
                exact Prod.ext rfl rfl
              rw [this]
              exact List.mem_cons_self _ _
          exact ⟨hne, e', he', h1, h2', rfl⟩
        · rintro ⟨hne, e', he', h1, h2, rfl⟩
          refine ⟨e', he', h1, ?_, rfl⟩
          intro hmem
          rcases List.mem_cons.mp hmem with heq | hmem'
          · apply hne
            have : Sym2.mk e'.1 = Sym2.mk (e'.1.2, e'.1.1) := Sym2.eq_swap.symm
            rw [this, heq]
          · exact h2 hmem'
      have hmemkeys : ∀ s', (pairKeys rest s').card =
          ((rest.filter (fun e' => decide (e'.1.1 ≠ e'.1.2 ∧ (e'.1.2, e'.1.1) ∉ s'))).map
            (fun e' => Sym2.mk e'.1)).toFinset.card := fun _ => rfl
      have ihr := ih (e.1 :: seen) hnd' (by
        intro e' he'
        intro hmem
        rcases List.mem_cons.mp hmem with heq | hmem'
        · exact hhead (heq ▸ List.mem_map_of_mem (fun e => e.1) he')
        · exact hseen e' (List.mem_cons_of_mem _ he') hmem')
      rw [List.length_cons, ihr, herase, hkeys]
      by_cases hin : Sym2.mk e.1 ∈ pairKeys rest seen
      · rw [Finset.insert_eq_self.mpr hin]
        exact Finset.card_erase_add_one hin
      · rw [Finset.erase_eq_of_not_mem hin, Finset.card_insert_of_not_mem hin]
    · rw [if_neg h]
      have hkeys : pairKeys (e :: rest) seen = pairKeys rest seen := by
        simp [pairKeys, List.filter_cons, h]
      rw [hkeys]
      exact ih seen hnd' (fun e' he' => hseen e' (List.mem_cons_of_mem _ he'))

theorem offDiag_image_sym2_insert {α : Type} [DecidableEq α] (a : α) (s : Finset α)
    (ha : a ∉ s) :
    (insert a s).offDiag.image Sym2.mk =
      s.offDiag.image Sym2.mk ∪ s.image (fun x => Sym2.mk (a, x)) := by
  apply Finset.ext
  intro x
  constructor
  · intro hx
    rcases Finset.mem_image.mp hx with ⟨p, hp, hpx⟩
    rcases Finset.mem_offDiag.mp hp with ⟨hu, hv, huv⟩
    rcases Finset.mem_insert.mp hu with hua | hus
    · rcases Finset.mem_insert.mp hv with hva | hvs
      · exact absurd (hua.trans hva.symm) huv
      · apply Finset.mem_union_right
        apply Finset.mem_image.mpr
        refine ⟨p.2, hvs, ?_⟩
        rw [← hpx, ← hua, Prod.mk.eta]
    · rcases Finset.mem_insert.mp hv with hva | hvs
      · apply Finset.mem_union_right
        apply Finset.mem_image.mpr
        refine ⟨p.1, hus, ?_⟩
        rw [← hpx, ← hva]
        rw [show ((p.2 : α), (p.1 : α)) = Prod.swap p from rfl, Sym2.mk_prod_swap_eq]
      · apply Finset.mem_union_left
        apply Finset.mem_image.mpr
        exact ⟨p, Finset.mem_offDiag.mpr ⟨hus, hvs, huv⟩, hpx⟩
  · intro hx
    rcases Finset.mem_union.mp hx with hx | hx
    · rcases Finset.mem_image.mp hx with ⟨p, hp, hpx⟩
      rcases Finset.mem_offDiag.mp hp with ⟨hu, hv, huv⟩
      exact Finset.mem_image.mpr ⟨p,
        Finset.mem_offDiag.mpr ⟨Finset.mem_insert_of_mem hu, Finset.mem_insert_of_mem hv, huv⟩,
        hpx⟩
    · rcases Finset.mem_image.mp hx with ⟨y, hy, hyx⟩
      refine Finset.mem_image.mpr ⟨(a, y), Finset.mem_offDiag.mpr
        ⟨Finset.mem_insert_self a s, Finset.mem_insert_of_mem hy, ?_⟩, hyx⟩
      intro heq
      have hay : a = y := heq
      rw [hay] at ha
      exact ha hy

theorem card_offDiag_image_sym2 {α : Type} [DecidableEq α] (s : Finset α) :
    (s.offDiag.image Sym2.mk).card = s.card.choose 2 := by
  induction s using Finset.induction_on with
  | empty => simp
  | @insert a s ha ih =>
    rw [offDiag_image_sym2_insert a s ha]
    have hdisj : Disjoint (s.offDiag.image Sym2.mk) (s.image (fun x => Sym2.mk (a, x))) := by
      rw [Finset.disjoint_left]
      rintro x hx hx'
      rcases Finset.mem_image.mp hx with ⟨p, hp, hpx⟩
      rcases Finset.mem_image.mp hx' with ⟨y, hy, hyx⟩
      rcases Finset.mem_offDiag.mp hp with ⟨hu, hv, -⟩
      have heq : Sym2.mk (a, y) = Sym2.mk p := hyx.trans hpx.symm
      rcases Sym2.mk_eq_mk_iff.mp heq with heq' | heq'
      · have hap : a = p.1 := congrArg Prod.fst heq'
        rw [hap] at ha
        exact ha hu
      · have hap : a = p.2 := congrArg Prod.fst heq'
        rw [hap] at ha
        exact ha hv
    rw [Finset.card_union_of_disjoint hdisj, ih,
      Finset.card_image_of_injOn (fun x _ y _ h => Sym2.congr_right.mp h),
      Finset.card_insert_of_not_mem ha]
    have h2 : (s.card + 1).choose 2 = s.card.choose 1 + s.card.choose 2 :=
      Nat.choose_succ_succ s.card 1
    rw [h2, Nat.choose_one_right, Nat.add_comm]

theorem mem_unstackAbs {cols : List String} {f : String → String → ℚ} {e : PairEntry} :
    e ∈ unstackAbs cols f ↔ ∃ a ∈ cols, ∃ b ∈ cols, e = ((a, b), f a b) := by
  simp only [unstackAbs, List.mem_flatMap, List.mem_map]
  constructor
  · rintro ⟨a, ha, b, hb, rfl⟩
    exact ⟨a, ha, b, hb, rfl⟩
  · rintro ⟨a, ha, b, hb, rfl⟩
    exact ⟨a, ha, b, hb, rfl⟩

theorem unstackAbs_map_fst (cols : List String) (f : String → String → ℚ) :
    (unstackAbs cols f).map (fun e => e.1) =
      cols.flatMap (fun a => cols.map (fun b => (a, b))) := by
  simp [unstackAbs, List.map_flatMap, Function.comp_def]

theorem unstackAbs_map_fst_nodup (cols : List String) (f : String → String → ℚ)
    (h : cols.Nodup) : ((unstackAbs cols f).map (fun e => e.1)).Nodup := by
  rw [unstackAbs_map_fst, List.nodup_flatMap]
  constructor
  · intro a _
    exact h.map (fun b b' hb => show b = b' from congrArg Prod.snd hb)
  · apply h.pairwise_of_forall_ne
    intro a ha a' ha' hne
    simp only [Function.onFun]
    intro p hp hp'
    rcases List.mem_map.mp hp with ⟨b, _, rfl⟩
    rcases List.mem_map.mp hp' with ⟨b', _, heq⟩
    exact hne (show a' = a from congrArg Prod.fst heq).symm

theorem pairKeys_unstack (cols : List String) (f : String → String → ℚ) :
    pairKeys (unstackAbs cols f) [] = cols.toFinset.offDiag.image Sym2.mk := by
  apply Finset.ext
  intro x
  rw [mem_pairKeys]
  constructor
  · rintro ⟨e, he, hne, -, rfl⟩
    rcases mem_unstackAbs.mp he with ⟨a, ha, b, hb, rfl⟩
    exact Finset.mem_image.mpr ⟨(a, b), Finset.mem_offDiag.mpr
      ⟨List.mem_toFinset.mpr ha, List.mem_toFinset.mpr hb, hne⟩, rfl⟩
  · intro hx
    rcases Finset.mem_image.mp hx with ⟨p, hp, hpx⟩
    rcases Finset.mem_offDiag.mp hp with ⟨hu, hv, huv⟩
    refine ⟨((p.1, p.2), f p.1 p.2), mem_unstackAbs.mpr
      ⟨p.1, List.mem_toFinset.mp hu, p.2, List.mem_toFinset.mp hv, rfl⟩,
      huv, List.not_mem_nil _, ?_⟩
    rw [← hpx, Prod.mk.eta]

theorem top_pairs_perm (cols : List String) (f : String → String → ℚ) :
    List.Perm (top_pairs cols f) (unstackAbs cols f) :=
  List.perm_insertionSort scoreGE (unstackAbs cols f)

theorem top_pairs_sorted (cols : List String) (f : String → String → ℚ) :
    (top_pairs cols f).Pairwise scoreGE :=
  List.sorted_insertionSort scoreGE (unstackAbs cols f)

/-- Core length result: the Ranked Pair List has exactly
`min 5 (numColumns choose 2)` entries. -/
theorem rankedPairs_length (cols : List String) (f : String → String → ℚ)
    (h : cols.Nodup) :
    (rankedPairs cols f).length = min 5 (cols.length.choose 2) := by
  have hperm := top_pairs_perm cols f
  have hnd : ((top_pairs cols f).map (fun e => e.1)).Nodup :=
    ((hperm.map (fun e => e.1)).nodup_iff).mpr (unstackAbs_map_fst_nodup cols f h)
  rw [rankedPairs, selectPairs_eq_take _ _ _ (by omega), List.length_take,
    selectAll_length _ _ hnd (by intro e _ hm; exact (List.not_mem_nil _ hm))]
  have hkeys : pairKeys (top_pairs cols f) [] = pairKeys (unstackAbs cols f) [] := by
    unfold pairKeys
    exact List.toFinset_eq_of_perm _ _ ((hperm.filter _).map _)
  rw [hkeys, pairKeys_unstack, card_offDiag_image_sym2, List.toFinset_card_of_nodup h]

/-- The entries of the Ranked Pair List are `((a, b), f a b)` triples over
the given columns. -/
theorem rankedPairs_entry_form (cols : List String) (f : String → String → ℚ) :
    ∀ e ∈ rankedPairs cols f,
      e.1.1 ∈ cols ∧ e.1.2 ∈ cols ∧ e.2 = f e.1.1 e.1.2 := by
  intro e he
  have h1 : e ∈ top_pairs cols f := selectPairs_mem _ _ _ e he
  have h2 : e ∈ unstackAbs cols f := (top_pairs_perm cols f).mem_iff.mp h1
  rcases mem_unstackAbs.mp h2 with ⟨a, ha, b, hb, rfl⟩
  exact ⟨ha, hb, rfl⟩

theorem zipWith_mul_comm (a b : List ℚ) :
    List.zipWith (fun x y => x * y) a b = List.zipWith (fun x y => x * y) b a := by
  induction a generalizing b with
  | nil => cases b <;> simp
  | cons x xs ih =>
    cases b with
    | nil => simp
    | cons y ys => simp [mul_comm, ih]

theorem zipWith_mul_self (l : List ℚ) :
    List.zipWith (fun x y => x * y) l l = l.map (fun x => x * x) := by
  induction l with
  | nil => simp
  | cons x xs ih => simp [ih]

theorem sum_map_mul_self_nonneg (l : List ℚ) : 0 ≤ (l.map (fun x => x * x)).sum := by
  apply List.sum_nonneg
  intro q hq
  rcases List.mem_map.mp hq with ⟨x, -, rfl⟩
  exact mul_self_nonneg x

theorem covSum_comm (x y : List ℚ) : covSum x y = covSum y x := by
  rw [covSum, covSum, zipWith_mul_comm]

theorem varSum_nonneg (x : List ℚ) : 0 ≤ varSum x := by
  rw [varSum, covSum, zipWith_mul_self]
  exact sum_map_mul_self_nonneg _

/-- Cauchy-Schwarz for (possibly unequal-length) lists of rationals. -/
theorem sum_zipWith_mul_sq_le (a b : List ℚ) :
    ((List.zipWith (fun x y => x * y) a b).sum) ^ 2 ≤
      (a.map (fun x => x * x)).sum * (b.map (fun x => x * x)).sum := by
  induction a generalizing b with
  | nil => simp
  | cons x xs ih =>
    cases b with
    | nil => simp
    | cons y ys =>
      simp only [List.zipWith_cons_cons, List.map_cons, List.sum_cons]
      have hA : 0 ≤ (xs.map (fun x => x * x)).sum := sum_map_mul_self_nonneg xs
      have hB : 0 ≤ (ys.map (fun x => x * x)).sum := sum_map_mul_self_nonneg ys
      have hS := ih ys
      set A := (xs.map (fun x => x * x)).sum
      set B := (ys.map (fun x => x * x)).sum
      set S := (List.zipWith (fun x y => x * y) xs ys).sum
      by_cases hB0 : B = 0
      · have hSsq : S ^ 2 = 0 := by
          apply le_antisymm
          · calc S ^ 2 ≤ A * B := hS
              _ = 0 := by rw [hB0, mul_zero]
          · exact sq_nonneg S
        have hS0 : S = 0 := (pow_eq_zero_iff two_ne_zero).mp hSsq
        rw [hB0, hS0]
        nlinarith [mul_nonneg hA (mul_self_nonneg y)]
      · have hBpos : 0 < B := lt_of_le_of_ne hB (Ne.symm hB0)
        have h2 : 0 ≤ (y * y + B) * (A * B - S ^ 2) :=
          mul_nonneg (by linarith [mul_self_nonneg y]) (by nlinarith)
        nlinarith [sq_nonneg (x * B - y * S), h2, hBpos]

theorem covSum_sq_le (x y : List ℚ) : covSum x y ^ 2 ≤ varSum x * varSum y := by
  rw [covSum, varSum, varSum, covSum, covSum, zipWith_mul_self, zipWith_mul_self]
  exact sum_zipWith_mul_sq_le (devs x) (devs y)

theorem corr_symm (x y : List ℚ) : corr x y = corr y x := by
  rw [corr, corr]
  by_cases hc : varSum x = 0 ∨ varSum y = 0
  · rw [if_pos hc, if_pos (Or.symm hc)]
  · rw [if_neg hc, if_neg (fun h => hc (Or.symm h)), covSum_comm, mul_comm]

theorem corr_diag (x : List ℚ) (h : varSum x ≠ 0) : corr x x = some 1 := by
  rw [corr, if_neg (by simp [h])]
  have hv : (0:ℝ) ≤ (varSum x : ℝ) := by exact_mod_cast varSum_nonneg x
  have : Real.sqrt (varSum x) * Real.sqrt (varSum x) = (varSum x : ℝ) :=
    Real.mul_self_sqrt hv
  rw [show covSum x x = varSum x from rfl, this]
  have hne : (varSum x : ℝ) ≠ 0 := by exact_mod_cast h
  rw [div_self hne]

theorem corr_mem_Icc (x y : List ℚ) (r : ℝ) (h : corr x y = some r) :
    -1 ≤ r ∧ r ≤ 1 := by
  rw [corr] at h
  by_cases hc : varSum x = 0 ∨ varSum y = 0
  · rw [if_pos hc] at h
    exact absurd h (by simp)
  · rw [if_neg hc] at h
    push_neg at hc
    have hvx : (0:ℝ) < (varSum x : ℝ) := by
      have h0 := varSum_nonneg x
      have h1 : varSum x ≠ 0 := hc.1
      exact_mod_cast lt_of_le_of_ne h0 (Ne.symm h1)
    have hvy : (0:ℝ) < (varSum y : ℝ) := by
      have h0 := varSum_nonneg y
      have h1 : varSum y ≠ 0 := hc.2
      exact_mod_cast lt_of_le_of_ne h0 (Ne.symm h1)
    have hs : 0 < Real.sqrt (varSum x) * Real.sqrt (varSum y) :=
      mul_pos (Real.sqrt_pos.mpr hvx) (Real.sqrt_pos.mpr hvy)
    have hcov : |(covSum x y : ℝ)| ≤ Real.sqrt (varSum x) * Real.sqrt (varSum y) := by
      have h1 : ((covSum x y : ℝ)) ^ 2 ≤ (varSum x : ℝ) * (varSum y : ℝ) := by
        exact_mod_cast covSum_sq_le x y
      calc |(covSum x y : ℝ)|
          = Real.sqrt ((covSum x y : ℝ) ^ 2) := (Real.sqrt_sq_eq_abs _).symm
        _ ≤ Real.sqrt ((varSum x : ℝ) * (varSum y : ℝ)) := Real.sqrt_le_sqrt h1
        _ = Real.sqrt (varSum x) * Real.sqrt (varSum y) :=
            Real.sqrt_mul (le_of_lt hvx) _
    have hr : r = (covSum x y : ℝ) / (Real.sqrt (varSum x) * Real.sqrt (varSum y)) :=
      (Option.some.inj h).symm
    have habs : |r| ≤ 1 := by
      rw [hr, abs_div, abs_of_pos hs]
      exact div_le_one_of_le₀ hcov (le_of_lt hs)
    exact abs_le.mp habs

theorem sampleN_eq_min (n : Nat) (h : 1 ≤ n) : sampleN n = min 500 n := by
  rw [sampleN]
  split <;> omega

theorem pandasSample_spec {α : Type} (rows : List α) (idxs : List Nat)
    (hvalid : ∀ i ∈ idxs, i < rows.length) :
    ∃ sel, pandasSample rows idxs = some sel ∧ sel.length = idxs.length ∧
      ∀ r ∈ sel, r ∈ rows := by
  induction idxs with
  | nil => exact ⟨[], rfl, rfl, by simp⟩
  | cons i is ih =>
    have hi : i < rows.length := hvalid i (List.mem_cons_self i is)
    obtain ⟨sel, hs, hlen, hmem⟩ := ih (fun j hj => hvalid j (List.mem_cons_of_mem _ hj))
    refine ⟨rows[i] :: sel, ?_, by simp [hlen], ?_⟩
    · rw [pandasSample, List.mapM_cons, List.getElem?_eq_getElem hi]
      rw [pandasSample] at hs
      rw [hs]
      rfl
    · intro r hr
      rcases List.mem_cons.mp hr with rfl | hr
      · exact List.getElem_mem hi
      · exact hmem r hr

theorem pandasSample_single {α : Type} (rows : List α) (idxs : List Nat)
    (h1 : rows.length = 1) (hlen : idxs.length = sampleN rows.length)
    (hvalid : ∀ i ∈ idxs, i < rows.length) :
    pandasSample rows idxs = some rows := by
  cases rows with
  | nil => simp at h1
  | cons r rest =>
    cases rest with
    | cons r' rest' => simp at h1
    | nil =>
      rw [h1] at hlen
      rw [show sampleN 1 = 1 from rfl] at hlen
      cases idxs with
      | nil => simp at hlen
      | cons i is =>
        cases is with
        | cons j js => simp at hlen
        | nil =>
          have hi : i < 1 := hvalid i (List.mem_cons_self i [])
          interval_cases i
          rfl

/-! ## Map step and geospatial filter lemmas -/
theorem mapStep_isSome_iff (df : DF) :
    (mapStep df).1.isSome = true ↔
      (("Latitude" ∈ columnNames df ∧ "Longitude" ∈ columnNames df ∧
        "Revenue generated" ∈ columnNames df) ∧
       (dropnaSubset df ["Latitude", "Longitude"]).rows ≠ []) := by
  rw [mapStep]
  by_cases hc : "Latitude" ∈ columnNames df ∧ "Longitude" ∈ columnNames df ∧
      "Revenue generated" ∈ columnNames df
  · rw [if_pos hc]
    by_cases he : (dropnaSubset df ["Latitude", "Longitude"]).rows.isEmpty = true
    · rw [if_pos he]
      simp only [Option.isSome_none, Bool.false_eq_true, false_iff]
      rintro ⟨-, hne⟩
      exact hne (List.isEmpty_iff.mp he)
    · rw [if_neg he]
      simp only [Option.isSome_some, true_iff]
      refine ⟨hc, fun hr => he ?_⟩
      rw [List.isEmpty_iff]
      exact hr
  · rw [if_neg hc]
    simp only [Option.isSome_none, Bool.false_eq_true, false_iff]
    rintro ⟨hcols, -⟩
    exact hc hcols

theorem mapStep_center (df : DF) (art : MapArt) (h : (mapStep df).1 = some art) :
    art.lat = meanQ (colQ (dropnaSubset df ["Latitude", "Longitude"]) "Latitude") ∧
    art.lon = meanQ (colQ (dropnaSubset df ["Latitude", "Longitude"]) "Longitude") ∧
    art.zoom = 4 := by
  rw [mapStep] at h
  by_cases hc : "Latitude" ∈ columnNames df ∧ "Longitude" ∈ columnNames df ∧
      "Revenue generated" ∈ columnNames df
  · rw [if_pos hc] at h
    by_cases he : (dropnaSubset df ["Latitude", "Longitude"]).rows.isEmpty = true
    · rw [if_pos he] at h
      exact absurd h (by simp)
    · rw [if_neg he] at h
      have heq := Option.some.inj h
      rw [← heq]
      exact ⟨rfl, rfl, rfl⟩
  · rw [if_neg hc] at h
    exact absurd h (by simp)

theorem mapStep_none_msg (df : DF) (h : (mapStep df).1 = none) :
    (mapStep df).2 = [Msg.mapSkipCols] ∨ (mapStep df).2 = [Msg.mapSkipEmpty] := by
  rw [mapStep] at h ⊢
  by_cases hc : "Latitude" ∈ columnNames df ∧ "Longitude" ∈ columnNames df ∧
      "Revenue generated" ∈ columnNames df
  · rw [if_pos hc] at h ⊢
    by_cases he : (dropnaSubset df ["Latitude", "Longitude"]).rows.isEmpty = true
    · rw [if_pos he]
      exact Or.inr rfl
    · rw [if_neg he] at h
      exact absurd h (by simp)
  · rw [if_neg hc]
    exact Or.inl rfl

/-- After the global `dropna`, filtering on any subset of existing columns
keeps every row. -/
theorem dropnaSubset_of_complete (df : DF) (sub : List String)
    (hal : Aligned df) (hsub : ∀ c ∈ sub, c ∈ columnNames df) :
    dropnaSubset (dropnaAll df) sub = dropnaAll df := by
  have hrows : (dropnaAll df).rows.filter
      (fun r => sub.all (fun c => (cellAt (dropnaAll df) r c).isSome)) =
      (dropnaAll df).rows := by
    apply List.filter_eq_self.mpr
    intro r hr
    apply List.all_eq_true.mpr
    intro c hc
    have hcomplete := dropnaAll_rows_complete df r hr
    have hmem : r ∈ df.rows := dropnaAll_mem_rows df r hr
    have hrlen : r.length = df.cols.length := hal r hmem
    have hidx : colIndex (dropnaAll df) c < r.length := by
      rw [hrlen]
      have h1 : colIndex (dropnaAll df) c = colIndex df c := rfl
      rw [h1, colIndex]
      have := List.indexOf_lt_length.mpr (hsub c hc)
      rw [columnNames, List.length_map] at this
      exact this
    rw [cellAt, List.getD_eq_getElem?_getD, List.getElem?_eq_getElem hidx]
    exact hcomplete _ (List.getElem_mem hidx)
  rw [dropnaSubset, hrows]

/-! ## Run of the pipeline on the scenario table -/
theorem numerical_cols_nodup (df : DF) (h : (columnNames df).Nodup) :
    (numerical_cols df).Nodup := by
  have hsub : (numerical_cols df).Sublist (columnNames df) :=
    (List.filter_sublist df.cols).map Prod.fst
  exact List.Nodup.sublist hsub h

theorem pipeline_scenario (f : String → String → ℚ) :
    pipeline dfScenario f = Except.ok
      ([Fig.box, Fig.hist, Fig.kde, Fig.revline, Fig.heatmap,
        Fig.freq "Region", Fig.freq "Product name"] ++
        scatterFigs dfScenario f ++
        [Fig.pairplot, Fig.regional, Fig.topproducts],
       [Msg.violinSkip, Msg.mapSkipCols, Msg.pdfSaved]) := by
  have hdrop : dropnaAll dfScenario = dfScenario := by decide
  unfold pipeline
  rw [hdrop]
  rw [if_neg (by decide : ¬(numerical_cols dfScenario = []))]
  rw [show pairplotStep dfScenario = Except.ok [Fig.pairplot] from by decide]
  rw [show groupedStep dfScenario = Except.ok [] from by decide]
  simp only [Except.bind]
  rw [show violinStep dfScenario = ([], [Msg.violinSkip]) from by decide,
    show freqFigs dfScenario = [Fig.freq "Region", Fig.freq "Product name"] from by decide,
    show revlineFigs dfScenario = [Fig.revline] from by decide,
    show regionalFigs dfScenario = [Fig.regional] from by decide,
    show topFigs dfScenario = [Fig.topproducts] from by decide,
    show mapStep dfScenario = (none, [Msg.mapSkipCols]) from by decide]
  simp [List.append_assoc]

theorem scatterFigs_scenario_length (f : String → String → ℚ) :
    (scatterFigs dfScenario f).length = 5 := by
  rw [scatterFigs, List.length_map,
    rankedPairs_length (numerical_cols dfScenario) f (by decide)]
  decide

theorem claimedDocShape_no_freq (df : DF) (figs : List Fig) (msgs : List Msg)
    (h : claimedDocShape df figs msgs) (c : String) : Fig.freq c ∉ figs := by
  rcases h with ⟨sc, gr, hsc, -, hgr, hfigs, -, -⟩
  rw [hfigs]
  intro hmem
  simp only [List.mem_append, List.mem_cons, List.not_mem_nil, or_false] at hmem
  rcases hmem with ((((h1 | h2) | h3) | h4) | h5)
  · rcases h1 with h | h | h | h | h <;> exact Fig.noConfusion h
  · obtain ⟨a, b, heq⟩ := hsc _ h2
    exact Fig.noConfusion heq
  · exact Fig.noConfusion h3
  · obtain ⟨c', heq, -, -⟩ := hgr _ h4
    exact Fig.noConfusion heq
  · rcases h5 with h | h <;> exact Fig.noConfusion h

/-! ## Claim theorems -/

/-- C1: for every table, the Ranked Pair List produced by the
Correlation-Pair Selector contains no self-pairs, no two entries that are
reverses of each other, is ordered non-increasing by absolute correlation
score, carries the score of its column pair, and has length
`min 5 (numColumns choose 2)` where `numColumns` is the number of numerical
columns.  The hypothesis is that the table's column names are distinct, as
pandas guarantees after `read_csv`. -/
theorem claim_C1_ranked_pairs (df : DF) (f : String → String → ℚ)
    (h : (columnNames df).Nodup) :
    (∀ e ∈ rankedPairs (numerical_cols df) f, e.1.1 ≠ e.1.2) ∧
    (rankedPairs (numerical_cols df) f).Pairwise
      (fun e e' => e'.1 ≠ (e.1.2, e.1.1)) ∧
    (rankedPairs (numerical_cols df) f).Pairwise (fun e e' => e'.2 ≤ e.2) ∧
    (∀ e ∈ rankedPairs (numerical_cols df) f, e.2 = f e.1.1 e.1.2) ∧
    (rankedPairs (numerical_cols df) f).length =
      min 5 ((numerical_cols df).length.choose 2) := by
  refine ⟨selectPairs_no_self _ _ _, selectPairs_no_reverse _ _ _,
    selectPairs_sorted _ _ _ (top_pairs_sorted _ f), ?_,
    rankedPairs_length _ f (numerical_cols_nodup df h)⟩
  intro e he
  exact (rankedPairs_entry_form _ f e he).2.2

theorem claim_C1_ranked_pairs_witness :
    (rankedPairs (numerical_cols dfScenario) (fun _ _ => 0)).length =
      min 5 ((numerical_cols dfScenario).length.choose 2) :=
  (claim_C1_ranked_pairs dfScenario (fun _ _ => 0) (by decide)).2.2.2.2

/-- C2 (amended): the selector yields exactly 5 pairs when the numerical
column count is at least 4, and fewer than 5 pairs exactly when the count is
at most 3 (with 3 columns there are only `choose 3 2 = 3` distinct unordered
pairs, so 3 scatter figures, not 5). -/
theorem claim_C2_pair_count (df : DF) (f : String → String → ℚ)
    (h : (columnNames df).Nodup) :
    (4 ≤ (numerical_cols df).length →
      (rankedPairs (numerical_cols df) f).length = 5) ∧
    ((numerical_cols df).length ≤ 3 →
      (rankedPairs (numerical_cols df) f).length < 5) := by
  have hlen := rankedPairs_length (numerical_cols df) f (numerical_cols_nodup df h)
  constructor
  · intro h4
    rw [hlen]
    have h6 : 6 ≤ (numerical_cols df).length.choose 2 := by
      calc 6 = Nat.choose 4 2 := by decide
        _ ≤ _ := Nat.choose_le_choose 2 h4
    omega
  · intro h3
    rw [hlen]
    have hle : (numerical_cols df).length.choose 2 ≤ 3 := by
      calc (numerical_cols df).length.choose 2
          ≤ Nat.choose 3 2 := Nat.choose_le_choose 2 h3
        _ = 3 := by decide
    omega

theorem claim_C2_counterexample :
    3 ≤ (numerical_cols dfThreeNum).length ∧
    (rankedPairs (numerical_cols dfThreeNum) (fun _ _ => 0)).length ≠ 5 := by
  refine ⟨by decide, by decide⟩

theorem claim_C2_pair_count_witness :
    (rankedPairs (numerical_cols dfScenario) (fun _ _ => 1)).length = 5 :=
  (claim_C2_pair_count dfScenario (fun _ _ => 1) (by decide)).1 (by decide)

/-- C3: on a table that has the grouping column `Shipping mode` but no
`Revenue generated` column, the grouped-revenue step evaluates
`df.groupby(col)['Revenue generated']`, which raises `KeyError`, so the run
aborts instead of silently skipping the generator. -/
theorem claim_C3_grouped_keyerror :
    "Shipping mode" ∈ columnNames dfC3 ∧
    "Revenue generated" ∉ columnNames dfC3 ∧
    pipeline dfC3 (fun _ _ => 0) = Except.error "KeyError: Revenue generated" := by
  refine ⟨by decide, by decide, by decide⟩

/-- C4 (counterexample): on the scenario table the document does not consist
of the claimed sequence, because the frequency bar charts of the categorical
columns `Region` and `Product name` (lines 98-105) also appear, between the
heatmap and the scatter plots. -/
theorem claim_C4_counterexample :
    ∃ figs msgs, pipeline dfScenario (fun _ _ => 0) = Except.ok (figs, msgs) ∧
      ¬ claimedDocShape dfScenario figs msgs := by
  refine ⟨_, _, pipeline_scenario (fun _ _ => 0), ?_⟩
  intro hshape
  apply claimedDocShape_no_freq _ _ _ hshape "Region"
  simp

/-- C4 (amended): the scenario document is, in order, Box Plot, Histogram
Grid, KDE Grid, Revenue Line Plot, Correlation Heatmap, one Frequency Bar
Chart per categorical column (Region, Product name), exactly 5 Scatter
Plots, Sampled Pairwise Plot, the Grouped Revenue Bars for each present
grouping column (here none), Regional Revenue Bars and Top Products Bars,
with no Violin Plot and a console notice that the violin plot was skipped. -/
theorem claim_C4_document_order (f : String → String → ℚ) :
    pipeline dfScenario f = Except.ok
      ([Fig.box, Fig.hist, Fig.kde, Fig.revline, Fig.heatmap,
        Fig.freq "Region", Fig.freq "Product name"] ++
        scatterFigs dfScenario f ++
        [Fig.pairplot, Fig.regional, Fig.topproducts],
       [Msg.violinSkip, Msg.mapSkipCols, Msg.pdfSaved]) ∧
    (scatterFigs dfScenario f).length = 5 ∧
    (∀ g ∈ scatterFigs dfScenario f, ∃ a b, g = Fig.scatter a b) ∧
    Msg.violinSkip ∈ ([Msg.violinSkip, Msg.mapSkipCols, Msg.pdfSaved] : List Msg) ∧
    Fig.violin ∉
      [Fig.box, Fig.hist, Fig.kde, Fig.revline, Fig.heatmap,
        Fig.freq "Region", Fig.freq "Product name"] ++
        scatterFigs dfScenario f ++
        [Fig.pairplot, Fig.regional, Fig.topproducts] := by
  refine ⟨pipeline_scenario f, scatterFigs_scenario_length f, ?_, by decide, ?_⟩
  · intro g hg
    rcases List.mem_map.mp hg with ⟨e, -, rfl⟩
    exact ⟨e.1.1, e.1.2, rfl⟩
  · intro hmem
    simp only [List.mem_append, List.mem_cons, List.not_mem_nil, or_false] at hmem
    rcases hmem with (h1 | h2) | h3
    · rcases h1 with h | h | h | h | h | h | h <;> exact Fig.noConfusion h
    · rcases List.mem_map.mp h2 with ⟨e, -, heq⟩
      exact Fig.noConfusion heq
    · rcases h3 with h | h | h <;> exact Fig.noConfusion h

theorem claim_C4_document_order_witness :
    (scatterFigs dfScenario (fun _ _ => 2)).length = 5 :=
  (claim_C4_document_order (fun _ _ => 2)).2.1

/-- C5: the Table produced by the Loader contains no row with a missing
value in any column, and the retained rows are exactly (a sublist of) the
original rows with unchanged field values and unchanged columns. -/
theorem claim_C5_loader (df : DF) :
    (∀ r ∈ (dropnaAll df).rows, ∀ c ∈ r, c.isSome = true) ∧
    (dropnaAll df).rows.Sublist df.rows ∧
    (dropnaAll df).cols = df.cols :=
  ⟨dropnaAll_rows_complete df, dropnaAll_rows_sublist df, rfl⟩

theorem claim_C5_loader_witness :
    (some (Sum.inl (3:ℚ)) : Cell).isSome = true :=
  (claim_C5_loader dfMissing).1 [some (Sum.inl 3), some (Sum.inl 4)]
    (by
      rw [show (dropnaAll dfMissing).rows =
        [[some (Sum.inl 3), some (Sum.inl 4)]] from by decide]
      exact List.mem_singleton.mpr rfl)
    (some (Sum.inl 3)) (List.mem_cons_self _ _)

/-- C6 (amended): the Correlation Matrix is symmetric and its entries lie in
the interval from -1 to 1 whenever they are defined; a diagonal entry equals
1 provided the column has nonzero variance.  For a constant (zero-variance)
column the pandas entry is NaN (`none` here), not 1 - see the
counterexample. -/
theorem claim_C6_correlation (df : DF) (c1 c2 : String) :
    corrM df c1 c2 = corrM df c2 c1 ∧
    (varSum (colQ df c1) ≠ 0 → corrM df c1 c1 = some 1) ∧
    (∀ r : ℝ, corrM df c1 c2 = some r → -1 ≤ r ∧ r ≤ 1) :=
  ⟨corr_symm _ _, fun h => corr_diag _ h, fun r h => corr_mem_Icc _ _ r h⟩

theorem claim_C6_counterexample :
    2 ≤ (numerical_cols dfConstCol).length ∧
    corrM dfConstCol "x" "x" ≠ some 1 := by
  refine ⟨by decide, ?_⟩
  have hx : colQ dfConstCol "x" = [1, 1] := by decide
  have hvar : varSum (colQ dfConstCol "x") = 0 := by
    rw [hx]
    norm_num [varSum, covSum, devs, qmean]
  have hnone : corrM dfConstCol "x" "x" = none := by
    rw [corrM, corr, if_pos (Or.inl hvar)]
  rw [hnone]
  simp

theorem claim_C6_correlation_witness :
    corrM dfVarW "x" "x" = some 1 :=
  (claim_C6_correlation dfVarW "x" "y").2.1 (by
    rw [show colQ dfVarW "x" = [0, 2] from by decide]
    norm_num [varSum, covSum, devs, qmean])

/-- C7: the geospatial artifact is produced iff `Latitude`, `Longitude` and
`Revenue generated` all exist and the coordinate-filtered row set is
non-empty; when produced, the initial view centre is the mean latitude and
mean longitude of the filtered rows (at zoom 4); when not produced, a
diagnostic message is printed and the run continues. -/
theorem claim_C7_map (df : DF) :
    ((mapStep df).1.isSome = true ↔
      (("Latitude" ∈ columnNames df ∧ "Longitude" ∈ columnNames df ∧
        "Revenue generated" ∈ columnNames df) ∧
       (dropnaSubset df ["Latitude", "Longitude"]).rows ≠ [])) ∧
    (∀ art, (mapStep df).1 = some art →
      art.lat = meanQ (colQ (dropnaSubset df ["Latitude", "Longitude"]) "Latitude") ∧
      art.lon = meanQ (colQ (dropnaSubset df ["Latitude", "Longitude"]) "Longitude") ∧
      art.zoom = 4) ∧
    ((mapStep df).1 = none →
      (mapStep df).2 = [Msg.mapSkipCols] ∨ (mapStep df).2 = [Msg.mapSkipEmpty]) :=
  ⟨mapStep_isSome_iff df, fun art h => mapStep_center df art h, mapStep_none_msg df⟩

theorem claim_C7_map_witness :
    (MapArt.mk 10 20 4).lat =
      meanQ (colQ (dropnaSubset dfMapW ["Latitude", "Longitude"]) "Latitude") :=
  ((claim_C7_map dfMapW).2.1 ⟨10, 20, 4⟩ (by
    have hsubs : dropnaSubset dfMapW ["Latitude", "Longitude"] = dfMapW := by decide
    rw [mapStep, if_pos (by decide), if_neg (by rw [hsubs]; decide)]
    have hlat : meanQ (colQ (dropnaSubset dfMapW ["Latitude", "Longitude"]) "Latitude") = 10 := by
      rw [hsubs, show colQ dfMapW "Latitude" = [10] from by decide]
      norm_num [meanQ]
    have hlon : meanQ (colQ (dropnaSubset dfMapW ["Latitude", "Longitude"]) "Longitude") = 20 := by
      rw [hsubs, show colQ dfMapW "Longitude" = [20] from by decide]
      norm_num [meanQ]
    rw [show ((some ⟨meanQ (colQ (dropnaSubset dfMapW ["Latitude", "Longitude"]) "Latitude"),
      meanQ (colQ (dropnaSubset dfMapW ["Latitude", "Longitude"]) "Longitude"), 4⟩,
      ([Msg.mapSaved] : List Msg)) : Option MapArt × List Msg).1 =
      some ⟨meanQ (colQ (dropnaSubset dfMapW ["Latitude", "Longitude"]) "Latitude"),
        meanQ (colQ (dropnaSubset dfMapW ["Latitude", "Longitude"]) "Longitude"), 4⟩ from rfl]
    rw [hlat, hlon])).1

/-- C8 (amended): no column is classified as both numerical and
categorical; a column of integer or floating dtype lands in the numerical
sequence, one of object or category dtype in the categorical sequence, and
a column of any other declared dtype (for example boolean) lands in
neither - so the two sequences need not cover every column. -/
theorem claim_C8_classifier (df : DF) (h : (columnNames df).Nodup) :
    (∀ c : String, ¬(c ∈ numerical_cols df ∧ c ∈ categorical_cols df)) ∧
    (∀ p ∈ df.cols,
      (isNumericDtype p.2 = true → p.1 ∈ numerical_cols df) ∧
      (isCategoricalDtype p.2 = true → p.1 ∈ categorical_cols df) ∧
      (isNumericDtype p.2 = false → isCategoricalDtype p.2 = false →
        p.1 ∉ numerical_cols df ∧ p.1 ∉ categorical_cols df)) := by
  refine ⟨fun c => not_mem_both df h c, fun p hp =>
    ⟨numerical_cols_mem df p hp, categorical_cols_mem df p hp, ?_⟩⟩
  intro hn hc
  have hp' : (p.1, p.2) ∈ df.cols := by rw [Prod.mk.eta]; exact hp
  constructor
  · intro hmem
    rcases mem_numerical_cols df p.1 hmem with ⟨d, hd, hnum⟩
    have hdp : d = p.2 := dtype_unique df h hd hp'
    rw [hdp, hn] at hnum
    exact Bool.noConfusion hnum
  · intro hmem
    rcases mem_categorical_cols df p.1 hmem with ⟨d, hd, hcat⟩
    have hdp : d = p.2 := dtype_unique df h hd hp'
    rw [hdp, hc] at hcat
    exact Bool.noConfusion hcat

theorem claim_C8_counterexample :
    "Flag" ∈ columnNames dfBool ∧ "Flag" ∉ numerical_cols dfBool ∧
    "Flag" ∉ categorical_cols dfBool := by
  refine ⟨by decide, by decide, by decide⟩

theorem claim_C8_classifier_witness :
    ¬("x" ∈ numerical_cols dfBool ∧ "x" ∈ categorical_cols dfBool) :=
  (claim_C8_classifier dfBool (by decide)).1 "x"

/-- C9: for every non-empty list of rows and every draw the sampler can
make (distinct in-range positions, as many as the line-125 size
expression), the sample succeeds, has size exactly `min 500 rowCount`, and
consists of rows of the table; a 1-row table yields exactly its single
row.  The distinctness hypothesis is pandas' no-replacement guarantee. -/
theorem claim_C9_sampling {α : Type} (rows : List α) (idxs : List Nat)
    (hne : rows ≠ []) (_hnd : idxs.Nodup)
    (hvalid : ∀ i ∈ idxs, i < rows.length)
    (hlen : idxs.length = sampleN rows.length) :
    (∃ sel, pandasSample rows idxs = some sel ∧
      sel.length = min 500 rows.length ∧ ∀ r ∈ sel, r ∈ rows) ∧
    (rows.length = 1 → pandasSample rows idxs = some rows) := by
  have h1 : 1 ≤ rows.length := by
    cases rows with
    | nil => exact absurd rfl hne
    | cons r rest => simp
  constructor
  · obtain ⟨sel, hs, hl, hm⟩ := pandasSample_spec rows idxs hvalid
    exact ⟨sel, hs, by rw [hl, hlen, sampleN_eq_min _ h1], hm⟩
  · intro hone
    exact pandasSample_single rows idxs hone hlen hvalid

theorem claim_C9_sampling_witness :
    pandasSample [(42:ℚ)] [0] = some [(42:ℚ)] :=
  (claim_C9_sampling [(42:ℚ)] [0] (by decide) (by decide)
    (by decide) (by decide)).2 (by decide)

/-- C10: because the Loader already dropped every row containing a missing
value, the geospatial coordinate filter keeps every row of the loaded
table, so the derived map table equals the loaded table and its empty-set
skip branch is reachable only when the loaded table has no rows. -/
theorem claim_C10_geofilter (df : DF) (hal : Aligned df)
    (hlat : "Latitude" ∈ columnNames df) (hlon : "Longitude" ∈ columnNames df) :
    dropnaSubset (dropnaAll df) ["Latitude", "Longitude"] = dropnaAll df ∧
    ((dropnaSubset (dropnaAll df) ["Latitude", "Longitude"]).rows = [] ↔
      (dropnaAll df).rows = []) := by
  have hsub : ∀ c ∈ (["Latitude", "Longitude"] : List String), c ∈ columnNames df := by
    intro c hc
    rcases List.mem_cons.mp hc with rfl | hc
    · exact hlat
    · rcases List.mem_singleton.mp hc with rfl
      exact hlon
  have heq := dropnaSubset_of_complete df ["Latitude", "Longitude"] hal hsub
  exact ⟨heq, by rw [heq]⟩

theorem claim_C10_geofilter_witness :
    dropnaSubset (dropnaAll dfMapW) ["Latitude", "Longitude"] = dropnaAll dfMapW :=
  (claim_C10_geofilter dfMapW
    (by intro r hr; rcases List.mem_singleton.mp hr with rfl; rfl)
    (by decide) (by decide)).1
